import Mathlib

/-!
Verification development for the protein-ligand docking automation engine
(`dock.py`).  The Python source is shallowly embedded: file contents are
lists of lines or structured rows, Python `float` values are modelled as
`ℚ` (the scores handled by the program are plain decimal literals), and the
stateful loops of `__main__` are folds over explicit state.  Each definition
carries a comment naming the Python function (and, where useful, the line
range) it embeds.
-/

namespace Dock

/-! ## String utilities mirroring the Python primitives used by dock.py -/

/-- Numeric value of a list of decimal digit characters (most significant
first), as computed by Python when parsing the integral or fractional part
of a float literal. -/
def digitsToNat (l : List Char) : ℕ :=
  l.foldl (fun a c => 10 * a + (c.toNat - 48)) 0

/-- Structural part of parsing a decimal token: optional leading sign,
integral digits, optional single dot, fractional digits.  Returns
(negative?, integral value, fractional value, number of fractional digits).
This is the fragment of Python `float(...)` behaviour exercised by dock.py,
whose score tokens are plain decimals such as `-7.0`. -/
def parseDecimal (s : String) : Option (Bool × ℕ × ℕ × ℕ) :=
  let p : Bool × List Char :=
    match s.data with
    | '-' :: rest => (true, rest)
    | l => (false, l)
  let intPart := p.2.takeWhile (fun c => c ≠ '.')
  let rest := p.2.dropWhile (fun c => c ≠ '.')
  let fracPart :=
    match rest with
    | '.' :: f => f
    | _ => []
  if intPart ≠ [] ∧ intPart.all Char.isDigit ∧ fracPart.all Char.isDigit then
    some (p.1, digitsToNat intPart, digitsToNat fracPart, fracPart.length)
  else
    none

/-- Rational value of a parsed decimal token. -/
def ratOfParts (p : Bool × ℕ × ℕ × ℕ) : ℚ :=
  let v : ℚ := (p.2.1 : ℚ) + (p.2.2.1 : ℚ) / (10 ^ p.2.2.2 : ℚ)
  if p.1 then -v else v

/-- Python `float(s)` on the decimal tokens handled by dock.py, as a
rational number; `none` where Python would raise `ValueError`. -/
def parseRat (s : String) : Option ℚ :=
  (parseDecimal s).map ratOfParts

/-- Python substring containment `pat in hay` on character lists. -/
def listContains (hay pat : List Char) : Bool :=
  (List.range (hay.length + 1)).any (fun i => pat.isPrefixOf (hay.drop i))

/-- Python substring containment `pat in hay` for strings. -/
def strContains (hay pat : String) : Bool :=
  listContains hay.data pat.data

/-- Python `s.split()` with no argument: split on whitespace runs and drop
empty fields. -/
def pyWords (s : String) : List String :=
  ((s.data.splitOnP (fun c => c.isWhitespace)).filter (fun w => w ≠ [])).map
    (fun w => String.mk w)

/-- Python `s.startswith(pre)`, computed on the character lists. -/
def strStartsWith (s pre : String) : Bool :=
  pre.data.isPrefixOf s.data

/-- Python `s.strip()`: remove leading and trailing whitespace. -/
def pyStrip (s : String) : String :=
  String.mk
    (((s.data.dropWhile (fun c => c.isWhitespace)).reverse.dropWhile
      (fun c => c.isWhitespace)).reverse)

/-! ## The per-target score ledger (`results/scores/scores_<target>.txt`) -/

/-- One non-header row of a per-target score ledger, written by
`DockingTask.run` / `ScoreManager.write_score` as `f"{score} {ligand_name}"`.
`scoreText` is the raw score token as it appears in the file (the first
whitespace-delimited field); `name` is the ligand/pose name (the second
field). -/
structure ScoreRow where
  scoreText : String
  name : String
deriving DecidableEq

/-- Numeric value of a row's score field: `float(line.split()[0])`.
dock.py only ever applies this to rows whose token parses (otherwise the
Python raises `ValueError`); the `getD 0` default is never reached under
the well-formedness hypotheses used below. -/
def rowScore (r : ScoreRow) : ℚ :=
  (parseRat r.scoreText).getD 0

/-- The full text of a ledger line, `f"{score} {ligand_name}"`; substring
lookups in dock.py test containment against this whole line. -/
def rowLine (r : ScoreRow) : String :=
  r.scoreText ++ " " ++ r.name

/-- Comparator used by `sorted(lines, key=lambda x: float(x.split()[0]))`:
rows compare by numeric score.  Python's `sorted` is stable, so the ledger
re-sort is embedded as a stable merge sort with this comparator. -/
def scoreLE (a b : ScoreRow) : Bool :=
  rowScore a ≤ rowScore b

/-- `ScoreManager.update_sorted_scores` (dock.py 215-224): read all
non-header rows and rewrite them stably sorted ascending by numeric score. -/
def update_sorted_scores (rows : List ScoreRow) : List ScoreRow :=
  rows.mergeSort scoreLE

/-- `ScoreManager.write_score` (dock.py 202-213), ledger effect: append the
row `f"{score} {ligand_name}"` and re-sort the file. -/
def write_score (rows : List ScoreRow) (scoreText name : String) : List ScoreRow :=
  update_sorted_scores (rows ++ [⟨scoreText, name⟩])

/-- Ledger obtained by a sequence of `write_score` appends starting from an
empty file (the header row is filtered out on every read and is not part of
the row model). -/
def ledgerAfter (appends : List ScoreRow) : List ScoreRow :=
  appends.foldl (fun acc r => write_score acc r.scoreText r.name) []

/-! ## Score-token acceptance and the per-task score phase
(`DockingTask.run`, dock.py 760-864) -/

/-- Python `s.isdigit()` restricted to the ASCII tokens dock.py handles:
true when the string is non-empty and all characters are decimal digits. -/
def pyIsDigitStr (l : List Char) : Bool :=
  !l.isEmpty && l.all Char.isDigit

/-- The score-token test of dock.py line 828:
`score.replace(".", "", 1).replace("-", "", 1).isdigit() or score == "-"`.
`replace(c, "", 1)` deletes the first occurrence of `c` wherever it is,
which is `List.erase`. -/
def acceptsScoreToken (t : String) : Bool :=
  pyIsDigitStr ((t.data.erase '.').erase '-') || t == "-"

/-- Modelled from the spec's words only, for comparison with
`acceptsScoreToken`: a token that is "numeric (optionally signed, with at
most a single decimal point)" — an optional leading minus sign followed by
characters that are digits or a dot, with at most one dot and at least one
digit. -/
def numericTokenSpec (t : String) : Bool :=
  let u : List Char :=
    match t.data with
    | '-' :: rest => rest
    | l => l
  decide (u.count '.' ≤ 1) && u.any Char.isDigit &&
    u.all (fun c => c.isDigit || c == '.')

/-- Outcome of the tail of `DockingTask.run` (dock.py 808-850) for one
task: the target's ledger rows, the failure ledger `FAILED_DOCKINGS`, and
whether the run aborts with an uncaught exception. -/
structure TaskOutcome where
  rows : List ScoreRow
  failed : List (String × String)
  fatal : Bool
deriving DecidableEq

/-- The score-handling tail of `DockingTask.run` (dock.py 808-850).
`logExists` is `log_file.exists()` after `vina_process.wait()`; `tok` is
the token `line.split()[1]` of the first log line starting with `"   1"`
(`none` when no such line exists, so `score` stays `None`).
Branches, in source order:
* log file missing (808-811): print an error, append `(ligand, protein)`
  to `FAILED_DOCKINGS`, and `return` — the run continues;
* token accepted (828-846): append the row to the ledger and re-sort it
  via `update_sorted_scores`; if any row's score token does not parse,
  Python's `float` raises `ValueError` inside `update_sorted_scores`,
  which is uncaught and aborts the run (`fatal`);
* otherwise (847-850): append `(ligand, protein)` to `FAILED_DOCKINGS`
  and continue. -/
def docking_task_score_phase (rows : List ScoreRow)
    (failed : List (String × String)) (logExists : Bool) (tok : Option String)
    (lig prot : String) : TaskOutcome :=
  if logExists = false then
    ⟨rows, failed ++ [(lig, prot)], false⟩
  else
    match tok with
    | none => ⟨rows, failed ++ [(lig, prot)], false⟩
    | some t =>
      if acceptsScoreToken t then
        let newRows := rows ++ [⟨t, lig⟩]
        if newRows.all (fun r => (parseRat r.scoreText).isSome) then
          ⟨update_sorted_scores newRows, failed, false⟩
        else
          ⟨newRows, failed, true⟩
      else
        ⟨rows, failed ++ [(lig, prot)], false⟩

/-- Extraction of the score token from the log (dock.py 819-824): the
second whitespace-delimited field of the first line starting with `"   1"`. -/
def extract_token (logLines : List String) : Option String :=
  (logLines.find? (fun l => strStartsWith l "   1")).bind
    (fun l => (pyWords l).get? 1)

/-! ## The two docking loops of `__main__` (dock.py 1252-1360)

State threaded through the loops: the per-target ledgers
(`results/scores/scores_<p>.txt`, one row list per target name) and the
failure ledger.  The external tool is abstracted as an oracle `tok` giving
the extracted score token for a (ligand-or-pose name, target) pair; the
log file always exists at this point because `DockingTask.run` creates it
with `open(log_file, "w")` before launching the process. -/

structure PhaseState where
  ledgers : String → List ScoreRow
  failed : List (String × String)

/-- Ledger/failure effect of one `DockingTask(...).run()` call on the
phase state (the artifact moves are modelled separately). -/
def run_main_task (tok : String → String → Option String) (st : PhaseState)
    (m p : String) : PhaseState :=
  let o := docking_task_score_phase (st.ledgers p) st.failed true (tok m p) m p
  ⟨fun q => if q = p then o.rows else st.ledgers q, o.failed⟩

/-- Inner `while PROTEIN_INDEX < total_proteins` loop of the main docking
phase (dock.py 1320-1352): for the fixed model `m`, execute a docking task
for every remaining target — there is no existence check of any kind before
a task.  Returns the final state and the trace of executed (name, target)
tasks. -/
def run_protein_loop (tok : String → String → Option String) (m : String) :
    PhaseState → List String → PhaseState × List (String × String)
  | st, [] => (st, [])
  | st, p :: ps =>
    let st1 := run_main_task tok st m p
    let r := run_protein_loop tok m st1 ps
    (r.1, (m, p) :: r.2)

/-- Middle `while MODEL_INDEX < total_models` loop (dock.py 1317-1356). -/
def run_model_loop (tok : String → String → Option String) :
    PhaseState → List String → List String → PhaseState × List (String × String)
  | st, [], _ => (st, [])
  | st, m :: ms, proteins =>
    let r1 := run_protein_loop tok m st proteins
    let r2 := run_model_loop tok r1.1 ms proteins
    (r2.1, r1.2 ++ r2.2)

/-- Outer `while LIGAND_INDEX < total_ligands` loop of the main phase
(dock.py 1303-1360).  `ligandModels` pairs each candidate ligand with its
extracted model (pose) names. -/
def run_main_phase (tok : String → String → Option String) :
    PhaseState → List (String × List String) → List String →
    PhaseState × List (String × String)
  | st, [], _ => (st, [])
  | st, lm :: rest, proteins =>
    let r1 := run_model_loop tok st lm.2 proteins
    let r2 := run_main_phase tok r1.1 rest proteins
    (r2.1, r1.2 ++ r2.2)

/-- The skip check of the comparison-ligand loop (dock.py 1260-1268): it
reads `RESULTS_DIR / f"scores_{protein_name}.txt"` — note, **not** the
ledger path `RESULTS_DIR / "scores" / f"scores_{protein_name}.txt"` that
the scoring code writes — and skips when any line of that file contains
the comparison-ligand name as a substring.  `rootFile` gives the lines of
`results/scores_<p>.txt`, `none` when that file does not exist. -/
def comparison_skip (rootFile : String → Option (List String))
    (compName p : String) : Bool :=
  match rootFile p with
  | none => false
  | some lines => lines.any (fun l => strContains l compName)

/-- Inner `while COMPARISON_PROTEIN_INDEX < total_proteins` loop of the
comparison (reference-scoring) phase (dock.py 1256-1288): skip the task
when `comparison_skip` fires (the cursor still advances to the next
target), otherwise execute it. -/
def run_comparison_loop (tok : String → String → Option String)
    (rootFile : String → Option (List String)) (c : String) :
    PhaseState → List String → PhaseState × List (String × String)
  | st, [] => (st, [])
  | st, p :: ps =>
    if comparison_skip rootFile c p then
      run_comparison_loop tok rootFile c st ps
    else
      let st1 := run_main_task tok st c p
      let r := run_comparison_loop tok rootFile c st1 ps
      (r.1, (c, p) :: r.2)

/-- Outer comparison-ligand loop (dock.py 1252-1293). -/
def run_comparison_phase (tok : String → String → Option String)
    (rootFile : String → Option (List String)) :
    PhaseState → List String → List String → PhaseState × List (String × String)
  | st, [], _ => (st, [])
  | st, c :: cs, proteins =>
    let r1 := run_comparison_loop tok rootFile c st proteins
    let r2 := run_comparison_phase tok rootFile r1.1 cs proteins
    (r2.1, r1.2 ++ r2.2)

/-- Number of ledger rows carrying a given name. -/
def nameCount (rows : List ScoreRow) (n : String) : ℕ :=
  (rows.filter (fun r => r.name = n)).length

/-! ## Name lookups by substring containment
(`ScoreManager`, dock.py 246-259, 461-467, 516-550) -/

/-- The reference-score lookup of `generate_comparison_scores`
(dock.py 461-467) and its twins (`write_ligand_stats` 253-259,
`write_per_protein_comparison_ligand_rankings` 340-345): scan the ledger
for the first row whose whole line contains the queried name as a
substring, and return that row's score field. -/
def lookup_comp_score (rows : List ScoreRow) (compName : String) : Option ℚ :=
  (rows.find? (fun r => strContains (rowLine r) compName)).map rowScore

/-- Score collection of `write_ligand_stats` (dock.py 246-259): for each
target, take the score of the first ledger line containing the ligand name
as a substring, if any (a missing ledger is the empty row list). -/
def ligand_stats_scores (proteins : List String)
    (ledgers : String → List ScoreRow) (ligandName : String) : List ℚ :=
  proteins.foldl
    (fun acc p =>
      match (ledgers p).find? (fun r => strContains (rowLine r) ligandName) with
      | some r => acc ++ [rowScore r]
      | none => acc)
    []

/-- RMS value and rank lookup of `write_ligand_summary` (dock.py 522-535):
over the stripped non-blank lines of the `scores_<comp>_RMS.txt` file —
headers included, since the code does not filter `#` lines here — find the
first line containing the ligand name as a substring and return its first
field's value together with `idx + 1` as the rank. -/
def summary_rms_lookup (rmsLines : List String) (ligandName : String) :
    Option (ℚ × ℕ) :=
  let ls := (rmsLines.map pyStrip).filter (fun l => l ≠ "")
  (ls.enum.find? (fun il => strContains il.2 ligandName)).map
    (fun il => (((pyWords il.2).head?.bind parseRat).getD 0, il.1 + 1))

/-! ## Per-target deviations and the RMS ranking
(`ScoreManager.generate_comparison_scores`, dock.py 452-497) -/

/-- Python tuple comparison on `(abs(diff), diff, lig_name)` triples, as
used by `diffs.sort()` (dock.py 477). -/
def tripleLE (a b : ℚ × ℚ × String) : Bool :=
  decide (a.1 < b.1 ∨ (a.1 = b.1 ∧
    (a.2.1 < b.2.1 ∨ (a.2.1 = b.2.1 ∧ a.2.2 ≤ b.2.2))))

/-- Python tuple comparison on `(value, name)` pairs, used for the
rational mean-square keys below. -/
def pairLE (a b : ℚ × String) : Bool :=
  decide (a.1 < b.1 ∨ (a.1 = b.1 ∧ a.2 ≤ b.2))

/-- The sorted deviation triples for one (reference ligand, target) pair
(dock.py 470-477): for every ledger row with score `S`, the triple
`(abs(S - comp), S - comp, name)`, sorted by Python tuple order; `none`
when the reference-score lookup failed (the target is skipped,
dock.py 468-469). -/
def per_protein_diffs (rows : List ScoreRow) (compName : String) :
    Option (List (ℚ × ℚ × String)) :=
  (lookup_comp_score rows compName).map (fun cs =>
    (rows.map (fun r => (|rowScore r - cs|, rowScore r - cs, r.name))).mergeSort
      tripleLE)

/-- Rows of `scores_<comp>_in_<protein>.txt` (dock.py 478-483): the signed
deviation and the name, in the sorted order of the triples. -/
def per_protein_file (rows : List ScoreRow) (compName : String) :
    Option (List (ℚ × String)) :=
  (per_protein_diffs rows compName).map (fun l => l.map (fun t => (t.2.1, t.2.2)))

/-- The flat `rms_scores` list (dock.py 457, 484-485): for each target (in
order), for each sorted triple, the pair `(lig_name, diff)`; targets whose
reference lookup failed contribute nothing. -/
def collect_rms_scores (compName : String) (proteins : List String)
    (ledgers : String → List ScoreRow) : List (String × ℚ) :=
  proteins.foldl
    (fun acc p =>
      match per_protein_diffs (ledgers p) compName with
      | none => acc
      | some l => acc ++ l.map (fun t => (t.2.2, t.2.1)))
    []

/-- Python `ligand_rms.setdefault(lig_name, []).append(diff)` on an
insertion-ordered association list (dock.py 486-488). -/
def dict_insert : List (String × List ℚ) → String → ℚ → List (String × List ℚ)
  | [], k, v => [(k, [v])]
  | kv :: rest, k, v =>
    if kv.1 = k then (kv.1, kv.2 ++ [v]) :: rest
    else kv :: dict_insert rest k v

/-- The grouped deviations dictionary (dock.py 486-488). -/
def group_diffs (pairs : List (String × ℚ)) : List (String × List ℚ) :=
  pairs.foldl (fun d p => dict_insert d p.1 p.2) []

/-- The mean of the squared deviations,
`sum(d**2 for d in diffs) / len(diffs)` (dock.py 491). -/
def mean_square (l : List ℚ) : ℚ :=
  (l.map (fun d => d ^ 2)).sum / l.length

/-- Python tuple comparison on the real-valued `(rms, lig_name)` pairs of
`rms_list.sort()` (dock.py 493). -/
noncomputable def realPairLE (a b : ℝ × String) : Bool :=
  @decide (a.1 < b.1 ∨ (a.1 = b.1 ∧ a.2 ≤ b.2)) (Classical.propDecidable _)

/-- Rows of `scores_<comp>_RMS.txt` (dock.py 489-497): one pair
`(sqrt(mean of squared deviations), name)` per grouped name, sorted by
Python tuple order.  (The `:.4f` formatting of the written text is not
modelled; values are kept exact.) -/
noncomputable def rms_file_rows (compName : String) (proteins : List String)
    (ledgers : String → List ScoreRow) : List (ℝ × String) :=
  ((group_diffs (collect_rms_scores compName proteins ledgers)).map
    (fun kv => ((Real.sqrt (mean_square kv.2 : ℝ), kv.1) : ℝ × String))).mergeSort
    realPairLE

/-- The deviations the process produces for pose name `n` against the
reference `compName`, one per target whose reference lookup succeeded and
whose ledger has a row named `n`: used to state what the grouped
dictionary contains. -/
def devs_for (compName : String) (proteins : List String)
    (ledgers : String → List ScoreRow) (n : String) : List ℚ :=
  proteins.filterMap (fun p =>
    (lookup_comp_score (ledgers p) compName).bind (fun cs =>
      ((ledgers p).find? (fun r => r.name = n)).map (fun r => rowScore r - cs)))

/-! ## Docking-box resolution (`ProteinManager`, dock.py 659-704) -/

/-- A docking box: center and size in each dimension. -/
structure Box where
  cx : ℚ
  cy : ℚ
  cz : ℚ
  sx : ℚ
  sy : ℚ
  sz : ℚ
deriving DecidableEq

/-- Key/value pairs parsed from a per-target configuration file
(dock.py 667-672): every line containing `=` contributes its stripped key
and stripped value text. -/
def config_params (lines : List String) : List (String × String) :=
  lines.filterMap (fun l =>
    if l.data.contains '=' then
      let k := l.data.takeWhile (fun c => c ≠ '=')
      let v := l.data.drop (k.length + 1)
      some (pyStrip (String.mk k), pyStrip (String.mk v))
    else none)

/-- Python dict lookup after all assignments: the value of the last line
that set the key. -/
def params_lookup (ps : List (String × String)) (k : String) : Option String :=
  ((ps.reverse).find? (fun kv => kv.1 = k)).map (fun kv => kv.2)

/-- `ProteinManager.get_box_from_config` (dock.py 664-681): `none` when the
per-target configuration file does not exist, otherwise the six
`params.get(...)` fields (each `none` when missing).  The numeric
conversion `float(v.strip())` is applied per field; dock.py would raise on
an unparseable value, which the well-formedness hypotheses below exclude. -/
def get_box_from_config (cfg : Option (List String)) :
    Option (List (Option ℚ)) :=
  cfg.map (fun lines =>
    ["center_x", "center_y", "center_z", "size_x", "size_y", "size_z"].map
      (fun k => (params_lookup (config_params lines) k).bind parseRat))

/-- The coordinates of the target file's ATOM records (dock.py 691-698):
for every line starting with `ATOM`, whitespace fields 6, 7 and 8. -/
def atomCoords (proteinLines : List String) : List (ℚ × ℚ × ℚ) :=
  (proteinLines.filter (fun l => strStartsWith l "ATOM")).map (fun l =>
    ((parseRat ((pyWords l).getD 6 "")).getD 0,
     (parseRat ((pyWords l).getD 7 "")).getD 0,
     (parseRat ((pyWords l).getD 8 "")).getD 0))

/-- `ProteinManager.calculate_docking_box` (dock.py 683-704): use the six
configuration values verbatim when the file exists and all six are filled
(`if box and all(v is not None for v in box)`); otherwise accumulate the
ATOM coordinates, divide by the count when it is positive, and use the
fixed default size 20 in each dimension. -/
def calculate_docking_box (cfg : Option (List String))
    (proteinLines : List String) : Box :=
  let fallback : Box :=
    let coords := atomCoords proteinLines
    let acc := coords.foldl
      (fun s c => (s.1 + c.1, s.2.1 + c.2.1, s.2.2 + c.2.2))
      ((0 : ℚ), (0 : ℚ), (0 : ℚ))
    let n := coords.length
    if 0 < n then
      ⟨acc.1 / n, acc.2.1 / n, acc.2.2 / n, 20, 20, 20⟩
    else
      ⟨0, 0, 0, 20, 20, 20⟩
  match get_box_from_config cfg with
  | some box =>
    if box.all (fun v => v.isSome) then
      match box with
      | [a, b, c, d, e, f] =>
        ⟨a.getD 0, b.getD 0, c.getD 0, d.getD 0, e.getD 0, f.getD 0⟩
      | _ => fallback
    else fallback
  | none => fallback

/-! ## The progress monitor (`DockingProgressMonitor.monitor`,
dock.py 131-166) -/

/-- The polling loop of `DockingProgressMonitor.monitor` (dock.py 147-161):
`stars k` is the number of `*` characters in the log file at the k-th poll;
the loop computes `progress = min(stars * 2, 100)` and keeps polling
`while progress < 100`.  `monitor_polls stars fuel k` is `some n` when the
loop, given `fuel` further polls and currently at poll index `k`, returns
after poll `n`; `none` when it is still looping after `fuel` polls. -/
def monitor_polls (stars : ℕ → ℕ) : ℕ → ℕ → Option ℕ
  | 0, _ => none
  | fuel + 1, k =>
    if min (2 * stars k) 100 < 100 then monitor_polls stars fuel (k + 1)
    else some k

/-- The monitor loop never returns: no amount of polling makes it exit. -/
def monitor_never_returns (stars : ℕ → ℕ) : Prop :=
  ∀ fuel, monitor_polls stars fuel 0 = none

/-! ## Moves and collision resolution
(`CacheManager.initialize_cache` dock.py 1085-1098;
`DockingTask.run` artifact move dock.py 856-861) -/

/-- The candidate backup name `f"{item.stem}_copy{counter}{item.suffix}"`
(dock.py 1091). -/
def copy_candidate (stem ext : String) (n : ℕ) : String :=
  stem ++ "_copy" ++ toString n ++ ext

/-- The `while new_destination.exists()` loop of the cache backup
(dock.py 1093-1096), starting at counter `n` with `fuel` iterations
available. -/
def backup_dest_loop (existing : List String) (stem ext : String) :
    ℕ → ℕ → String
  | 0, n => copy_candidate stem ext n
  | fuel + 1, n =>
    if copy_candidate stem ext n ∈ existing then
      backup_dest_loop existing stem ext fuel (n + 1)
    else copy_candidate stem ext n

/-- Destination chosen by the cache backup move (dock.py 1088-1098):
the plain name when it is free, otherwise `_copyN` with the first free
counter starting from 1.  `existing` is the set of names already in the
backup directory; `existing.length + 1` iterations always suffice when
some candidate in that range is free. -/
def backup_destination (existing : List String) (stem ext : String) : String :=
  if stem ++ ext ∈ existing then
    backup_dest_loop existing stem ext (existing.length + 1) 1
  else stem ++ ext

/-- A directory as an association of file names to contents. -/
def moveInto (dir : List (String × ℕ)) (name : String) (content : ℕ) :
    List (String × ℕ) :=
  dir.filter (fun f => f.1 ≠ name) ++ [(name, content)]

/-- The artifact move at the end of `DockingTask.run` (dock.py 856-861):
`shutil.move(str(output_file), dest_dir / output_file.name)` — the
destination keeps the source file's name unchanged, with no collision
handling, and `shutil.move` replaces an existing destination file. -/
def docking_task_artifact_move (destDir : List (String × ℕ))
    (fileName : String) (content : ℕ) : List (String × ℕ) :=
  moveInto destDir fileName content

/-! ## Helper lemmas -/

theorem scoreLE_trans : ∀ a b c : ScoreRow,
    scoreLE a b → scoreLE b c → scoreLE a c := by
  intro a b c h1 h2
  simp only [scoreLE, decide_eq_true_eq] at *
  exact le_trans h1 h2

theorem scoreLE_total : ∀ a b : ScoreRow, scoreLE a b || scoreLE b a := by
  intro a b
  simp only [scoreLE, Bool.or_eq_true, decide_eq_true_eq]
  exact le_total _ _

theorem ledgerAfter_append (l : List ScoreRow) (x : ScoreRow) :
    ledgerAfter (l ++ [x]) = update_sorted_scores (ledgerAfter l ++ [x]) := by
  simp [ledgerAfter, List.foldl_append, write_score]

theorem eraseTwo_digits_iff (l : List Char) :
    pyIsDigitStr ((l.erase '.').erase '-') = true ↔
      (l.count '.' ≤ 1 ∧ l.count '-' ≤ 1 ∧ l.any Char.isDigit = true ∧
        ∀ c ∈ l, c.isDigit ∨ c = '.' ∨ c = '-') := by
  have hcount_dot : ((l.erase '.').erase '-').count '.' = l.count '.' - 1 := by
    rw [List.count_erase_of_ne (by decide), List.count_erase_self]
  have hcount_dash : ((l.erase '.').erase '-').count '-' = l.count '-' - 1 := by
    rw [List.count_erase_self, List.count_erase_of_ne (by decide)]
  have hcount_other : ∀ c : Char, c ≠ '.' → c ≠ '-' →
      ((l.erase '.').erase '-').count c = l.count c := by
    intro c h1 h2
    rw [List.count_erase_of_ne h2, List.count_erase_of_ne h1]
  have hmem : ∀ c ∈ (l.erase '.').erase '-', c ∈ l := fun c hc =>
    List.mem_of_mem_erase (List.mem_of_mem_erase hc)
  simp only [pyIsDigitStr, Bool.and_eq_true, Bool.not_eq_true',
    List.isEmpty_eq_false, List.all_eq_true, List.any_eq_true]
  constructor
  · rintro ⟨hne, hall⟩
    refine ⟨?_, ?_, ?_, ?_⟩
    · by_contra h
      have h2 : 0 < ((l.erase '.').erase '-').count '.' := by omega
      have := hall _ (List.count_pos_iff.mp h2)
      simp at this
    · by_contra h
      have h2 : 0 < ((l.erase '.').erase '-').count '-' := by omega
      have := hall _ (List.count_pos_iff.mp h2)
      simp at this
    · obtain ⟨c, hc⟩ := List.exists_mem_of_ne_nil _ hne
      exact ⟨c, hmem c hc, hall c hc⟩
    · intro c hc
      by_contra h
      push_neg at h
      obtain ⟨hd, h1, h2⟩ := h
      have : 0 < ((l.erase '.').erase '-').count c := by
        rw [hcount_other c h1 h2]
        exact List.count_pos_iff.mpr hc
      have := hall _ (List.count_pos_iff.mp this)
      exact hd this
  · rintro ⟨hdot, hdash, ⟨d, hdl, hdd⟩, hin⟩
    have hd1 : d ≠ '.' := by
      rintro rfl
      simp at hdd
    have hd2 : d ≠ '-' := by
      rintro rfl
      simp at hdd
    have hdm : d ∈ (l.erase '.').erase '-' := by
      apply List.count_pos_iff.mp
      rw [hcount_other d hd1 hd2]
      exact List.count_pos_iff.mpr hdl
    refine ⟨List.ne_nil_of_mem hdm, ?_⟩
    intro c hc
    rcases hin c (hmem c hc) with h | rfl | rfl
    · exact h
    · have : 0 < ((l.erase '.').erase '-').count '.' := List.count_pos_iff.mpr hc
      omega
    · have : 0 < ((l.erase '.').erase '-').count '-' := List.count_pos_iff.mpr hc
      omega

/-! ## Claim C2 -/

/-- C2: after every append to a target's score ledger, the ledger's
non-header rows are in non-decreasing order of their numeric score field,
and rows with equal scores appear in their original append order —
preserved across every subsequent append-and-resort.  Stated for the
ledger reached by any sequence of appends (applying the theorem to
`appends.take k` covers every intermediate state): the rows are sorted by
`rowScore`, are a permutation of the appended rows, and any two equal-score
rows occur in the ledger in their append order. -/
theorem c2_ledger_sorted_ties_stable (appends : List ScoreRow) :
    (ledgerAfter appends).Pairwise (fun a b => rowScore a ≤ rowScore b)
    ∧ (ledgerAfter appends).Perm appends
    ∧ ∀ a b : ScoreRow, rowScore a = rowScore b →
        List.Sublist [a, b] appends →
        List.Sublist [a, b] (ledgerAfter appends) := by
  induction appends using List.reverseRecOn with
  | nil =>
    refine ⟨by simp [ledgerAfter], by simp [ledgerAfter], ?_⟩
    intro a b _ h
    simp at h
  | append_singleton l x ih =>
    obtain ⟨hsort, hperm, hstab⟩ := ih
    rw [ledgerAfter_append]
    have hperm2 : (update_sorted_scores (ledgerAfter l ++ [x])).Perm (l ++ [x]) := by
      refine (List.mergeSort_perm _ _).trans ?_
      exact hperm.append_right [x]
    refine ⟨?_, hperm2, ?_⟩
    · have := List.sorted_mergeSort scoreLE_trans scoreLE_total (ledgerAfter l ++ [x])
      exact this.imp (by intro a b h; simpa [scoreLE, decide_eq_true_eq] using h)
    · intro a b hab hsub
      apply List.pair_sublist_mergeSort scoreLE_trans scoreLE_total
      · simp [scoreLE, hab]
      · rcases List.sublist_append_iff.mp hsub with ⟨c1, c2, heq, h1, h2⟩
        have h2c : c2 = [] ∨ c2 = [x] := by
          cases h2 with
          | cons _ h => simp_all
          | cons₂ _ h => simp_all
        rcases h2c with rfl | rfl
        · rw [List.append_nil] at heq
          subst heq
          exact (hstab a b hab h1).trans (List.sublist_append_left _ _)
        · rcases c1 with _ | ⟨y, _ | ⟨z, zs⟩⟩
          · simp at heq
          · simp only [List.cons_append, List.nil_append, List.cons.injEq] at heq
            obtain ⟨rfl, rfl, -⟩ := heq
            have ha : a ∈ ledgerAfter l := hperm.mem_iff.mpr (by
              simpa using h1.subset (List.mem_singleton_self a))
            exact List.Sublist.append (List.singleton_sublist.mpr ha)
              (List.Sublist.refl _)
          · simp only [List.cons_append, List.cons.injEq] at heq
            obtain ⟨-, -, h0⟩ := heq
            exact absurd h0.symm (by simp)

/-- Witness for C2 at a concrete append sequence with an equal-score tie:
rows named a and c both score 2.0 and were appended in that order. -/
theorem c2_ledger_sorted_ties_stable_witness :
    rowScore ⟨"2.0", "a"⟩ = rowScore ⟨"2.0", "c"⟩
    ∧ List.Sublist [(⟨"2.0", "a"⟩ : ScoreRow), ⟨"2.0", "c"⟩]
        [⟨"2.0", "a"⟩, ⟨"-1.0", "b"⟩, ⟨"2.0", "c"⟩]
    ∧ List.Sublist [(⟨"2.0", "a"⟩ : ScoreRow), ⟨"2.0", "c"⟩]
        (ledgerAfter [⟨"2.0", "a"⟩, ⟨"-1.0", "b"⟩, ⟨"2.0", "c"⟩]) := by
  refine ⟨rfl, ?_, ?_⟩
  · exact (((List.Sublist.refl _).cons _).cons₂ _)
  · exact (c2_ledger_sorted_ties_stable _).2.2 _ _ rfl
      (((List.Sublist.refl _).cons _).cons₂ _)

/-! ## Claim C5 -/

/-- C5 counterexample: the claim says a token is accepted if and only if
it is numeric (optionally signed, at most a single decimal point), and
that every non-numeric token is recorded in the failure ledger with the
run continuing.  The code's test (dock.py 828) also accepts the bare token
`"-"` and tokens with an interior minus such as `"1-2"`, which are not
numeric; an accepted `"-"` is appended to the ledger as a ScoreRecord (not
to the failure ledger) and then aborts the run, because `float("-")`
raises inside `update_sorted_scores`. -/
theorem c5_accepts_nonnumeric_token :
    acceptsScoreToken "-" = true ∧ numericTokenSpec "-" = false
    ∧ acceptsScoreToken "1-2" = true ∧ numericTokenSpec "1-2" = false
    ∧ (docking_task_score_phase [] [] true (some "-") "lig" "prot").fatal = true
    ∧ (docking_task_score_phase [] [] true (some "-") "lig" "prot").rows
        = [⟨"-", "lig"⟩]
    ∧ (docking_task_score_phase [] [] true (some "-") "lig" "prot").failed
        = [] := by
  have ha : acceptsScoreToken "-" = true := by decide
  refine ⟨ha, by decide, by decide, by decide, ?_, ?_, ?_⟩ <;>
    simp [docking_task_score_phase, ha, parseRat, parseDecimal]

/-- C5 as amended: a score token is accepted iff it is exactly `"-"`, or
its characters are decimal digits plus at most one `.` and at most one `-`
in arbitrary positions with at least one digit (this is what deleting the
first `.` and the first `-` and testing `isdigit` computes).  In
particular every plain or leading-minus decimal is accepted, but so are
non-numeric tokens such as `"1-2"` and `"-"`.  A rejected token makes the
task append `(name, target)` to the failure ledger and the run continues
(this branch never aborts). -/
theorem c5_token_acceptance_characterized :
    (∀ t : String, acceptsScoreToken t = true ↔
      (t = "-" ∨ (t.data.count '.' ≤ 1 ∧ t.data.count '-' ≤ 1 ∧
        t.data.any Char.isDigit = true ∧
        ∀ c ∈ t.data, c.isDigit ∨ c = '.' ∨ c = '-')))
    ∧ ∀ (rows : List ScoreRow) (failed : List (String × String))
        (lig prot t : String), acceptsScoreToken t = false →
        docking_task_score_phase rows failed true (some t) lig prot
          = ⟨rows, failed ++ [(lig, prot)], false⟩ := by
  constructor
  · intro t
    simp only [acceptsScoreToken, Bool.or_eq_true, beq_iff_eq]
    rw [eraseTwo_digits_iff]
    constructor
    · rintro (h | h)
      · exact Or.inr h
      · exact Or.inl h
    · rintro (h | h)
      · exact Or.inr h
      · exact Or.inl h
  · intro rows failed lig prot t h
    simp [docking_task_score_phase, h]

/-- Witness for C5 as amended, at the rejected token `"abc"`. -/
theorem c5_token_acceptance_characterized_witness :
    acceptsScoreToken "abc" = false
    ∧ docking_task_score_phase [] [] true (some "abc") "lig" "prot"
        = ⟨[], [("lig", "prot")], false⟩ :=
  ⟨by decide,
    c5_token_acceptance_characterized.2 [] [] "lig" "prot" "abc" (by decide)⟩

/-! ## Claim C7 -/

/-- C7 counterexample: the claim says a missing log file after process
exit aborts the whole run fatally.  In the code (dock.py 808-811) it
instead appends the pair to the failure ledger and returns, with the run
continuing: the outcome for a concrete task has `fatal = false` and the
failure recorded. -/
theorem c7_missing_log_not_fatal :
    docking_task_score_phase [] [] false none "lig" "prot"
      = ⟨[], [("lig", "prot")], false⟩ := by
  simp [docking_task_score_phase]

/-- C7 as amended: when the log file does not exist after the external
process exits, the task records `(name, target)` in the failure ledger and
returns; the ledger is untouched and the run continues with the next task
(this is the same handling as an unparseable score, not a fatal abort). -/
theorem c7_missing_log_recorded_and_continues (rows : List ScoreRow)
    (failed : List (String × String)) (tok : Option String)
    (lig prot : String) :
    docking_task_score_phase rows failed false tok lig prot
      = ⟨rows, failed ++ [(lig, prot)], false⟩ := by
  simp [docking_task_score_phase]

/-! ## Claim C8 -/

/-- Helper for C8: with a log that never gains a progress marker, no
amount of polling makes the monitor loop exit. -/
theorem monitor_polls_none (fuel k : ℕ) :
    monitor_polls (fun _ => 0) fuel k = none := by
  induction fuel generalizing k with
  | zero => rfl
  | succ fuel ih => simp [monitor_polls, ih]

/-- C8 counterexample: the claim says the log-monitoring step terminates
and the executor proceeds to wait for process exit regardless of whether
the counted markers reach the 100% threshold.  In the code
(dock.py 147-161) the loop runs `while progress < 100`, so on a log whose
`*` count never reaches 50 the monitor never returns — and
`vina_process.wait()` (line 806) is only reached after it does. -/
theorem c8_monitor_can_loop_forever : monitor_never_returns (fun _ => 0) := by
  intro fuel
  exact monitor_polls_none fuel 0

/-- Helper for C8: full characterization of the polling loop from an
arbitrary start index. -/
theorem monitor_polls_some_iff (stars : ℕ → ℕ) :
    ∀ fuel k n, monitor_polls stars fuel k = some n ↔
      (k ≤ n ∧ n < k + fuel ∧ 50 ≤ stars n ∧
        ∀ m, k ≤ m → m < n → stars m < 50) := by
  intro fuel
  induction fuel with
  | zero =>
    intro k n
    simp only [monitor_polls]
    constructor
    · intro h
      simp at h
    · rintro ⟨h1, h2, -⟩
      omega
  | succ fuel ih =>
    intro k n
    by_cases hc : stars k < 50
    · have hcond : min (2 * stars k) 100 < 100 := by omega
      rw [monitor_polls, if_pos hcond, ih (k + 1) n]
      constructor
      · rintro ⟨h1, h2, h3, h4⟩
        refine ⟨by omega, by omega, h3, ?_⟩
        intro m hm1 hm2
        rcases Nat.eq_or_lt_of_le hm1 with rfl | h
        · exact hc
        · exact h4 m h hm2
      · rintro ⟨h1, h2, h3, h4⟩
        have hkn : k ≠ n := by
          rintro rfl
          omega
        refine ⟨by omega, by omega, h3, ?_⟩
        intro m hm1 hm2
        exact h4 m (by omega) hm2
    · have hcond : ¬ min (2 * stars k) 100 < 100 := by omega
      rw [monitor_polls, if_neg hcond]
      constructor
      · rintro h
        obtain rfl : k = n := by simpa using h
        refine ⟨le_refl _, by omega, by omega, ?_⟩
        intro m hm1 hm2
        omega
      · rintro ⟨h1, h2, h3, h4⟩
        have : k = n := by
          by_contra hne
          have := h4 k (le_refl _) (by omega)
          omega
        simp [this]

/-- C8 as amended: the monitor's polling loop returns exactly at the first
poll that sees at least 50 progress markers (i.e. a computed progress of
100%), and only then does the executor go on to wait for process exit; if
no poll ever reaches that threshold the loop never returns.  The progress
estimate is display-only in the sense that its value is not used for
anything else, but reaching 100% does gate progression. -/
theorem c8_monitor_returns_iff_threshold (stars : ℕ → ℕ) (fuel n : ℕ) :
    monitor_polls stars fuel 0 = some n ↔
      (n < fuel ∧ 50 ≤ stars n ∧ ∀ m < n, stars m < 50) := by
  rw [monitor_polls_some_iff stars fuel 0 n]
  constructor
  · rintro ⟨-, h2, h3, h4⟩
    exact ⟨by omega, h3, fun m hm => h4 m (Nat.zero_le m) hm⟩
  · rintro ⟨h1, h2, h3⟩
    exact ⟨Nat.zero_le n, by omega, h2, fun m _ hm => h3 m hm⟩

/-! ## Claim C9 -/

/-- Helper for C9: the `while new_destination.exists()` loop returns the
first free `_copyN` candidate at or after the starting counter, provided
one exists within the fuel bound. -/
theorem backup_loop_first_free (existing : List String) (stem ext : String) :
    ∀ fuel n, (∃ j, j < fuel ∧ copy_candidate stem ext (n + j) ∉ existing) →
      ∃ j0, j0 < fuel ∧
        backup_dest_loop existing stem ext fuel n
          = copy_candidate stem ext (n + j0)
        ∧ copy_candidate stem ext (n + j0) ∉ existing
        ∧ ∀ i < j0, copy_candidate stem ext (n + i) ∈ existing := by
  intro fuel
  induction fuel with
  | zero =>
    rintro n ⟨j, hj, -⟩
    omega
  | succ fuel ih =>
    intro n hex
    by_cases hn : copy_candidate stem ext n ∈ existing
    · rw [backup_dest_loop, if_pos hn]
      obtain ⟨j, hj, hfree⟩ := hex
      have hj0 : j ≠ 0 := by
        rintro rfl
        simp at hfree
        exact hfree hn
      obtain ⟨j1, rfl⟩ : ∃ j1, j = j1 + 1 := ⟨j - 1, by omega⟩
      obtain ⟨j0, hj0lt, heq, hfree0, hall⟩ := ih (n + 1)
        ⟨j1, by omega, by rwa [show n + 1 + j1 = n + (j1 + 1) by omega]⟩
      refine ⟨j0 + 1, by omega, ?_, ?_, ?_⟩
      · rw [heq]
        congr 1
        omega
      · rwa [show n + (j0 + 1) = n + 1 + j0 by omega]
      · intro i hi
        rcases i with _ | i1
        · simpa using hn
        · have := hall i1 (by omega)
          rwa [show n + (i1 + 1) = n + 1 + i1 by omega]
    · rw [backup_dest_loop, if_neg hn]
      exact ⟨0, by omega, by simp, by simpa using hn, by omega⟩

/-- C9 counterexample: the claim says every move/rename resolves
collisions with `_copyN` and never overwrites an existing file.  The
artifact move at the end of `DockingTask.run` (dock.py 856-861) keeps the
destination name unchanged and replaces any existing file: moving new
content 2 onto a directory already holding `a.pdbqt` (content 1) yields
only `a.pdbqt` with content 2 — the old file is overwritten and no
`a_copy1.pdbqt` is created. -/
theorem c9_artifact_move_overwrites :
    docking_task_artifact_move [("a.pdbqt", 1)] "a.pdbqt" 2 = [("a.pdbqt", 2)]
    ∧ ("a.pdbqt", 1) ∉ docking_task_artifact_move [("a.pdbqt", 1)] "a.pdbqt" 2
    ∧ (docking_task_artifact_move [("a.pdbqt", 1)] "a.pdbqt" 2).map
        (fun f => f.1) = ["a.pdbqt"] := by
  refine ⟨by decide, by decide, by decide⟩

/-- C9 as amended: only the cache-backup move of
`CacheManager.initialize_cache` (dock.py 1085-1098) resolves name
collisions, and there it does pick `_copyN` with the smallest unused
N ≥ 1 (keeping the plain name when it is free, and never overwriting);
the artifact moves into the result tree perform no collision resolution
and replace existing destinations (see the counterexample). -/
theorem c9_backup_smallest_unused_copyN (existing : List String)
    (stem ext : String) :
    (stem ++ ext ∉ existing → backup_destination existing stem ext = stem ++ ext)
    ∧ (stem ++ ext ∈ existing →
        (∃ n, n < existing.length + 1 ∧
          copy_candidate stem ext (n + 1) ∉ existing) →
        ∃ N, 1 ≤ N ∧
          backup_destination existing stem ext = copy_candidate stem ext N
          ∧ copy_candidate stem ext N ∉ existing
          ∧ ∀ m, 1 ≤ m → m < N → copy_candidate stem ext m ∈ existing) := by
  constructor
  · intro h
    rw [backup_destination, if_neg h]
  · intro hmem hex
    rw [backup_destination, if_pos hmem]
    obtain ⟨j, hj, hfree⟩ : ∃ j, j < existing.length + 1 ∧
        copy_candidate stem ext (1 + j) ∉ existing := by
      obtain ⟨n, hn, hf⟩ := hex
      exact ⟨n, hn, by rwa [show 1 + n = n + 1 by omega]⟩
    obtain ⟨j0, hj0, heq, hfree0, hall⟩ :=
      backup_loop_first_free existing stem ext (existing.length + 1) 1
        ⟨j, hj, hfree⟩
    refine ⟨1 + j0, by omega, heq, hfree0, ?_⟩
    intro m hm1 hm2
    have := hall (m - 1) (by omega)
    rwa [show 1 + (m - 1) = m by omega] at this

/-- Witness for C9 as amended: with a free plain name the backup move
keeps it, and with `name.ext` already present the chosen destination is
`name_copy1.ext`. -/
theorem c9_backup_smallest_unused_copyN_witness :
    ("name" ++ ".ext" ∉ ([] : List String)
      ∧ backup_destination [] "name" ".ext" = "name" ++ ".ext")
    ∧ ("name" ++ ".ext" ∈ ["name.ext"]
      ∧ (∃ n, n < 2 ∧ copy_candidate "name" ".ext" (n + 1) ∉ ["name.ext"])
      ∧ ∃ N, 1 ≤ N ∧
          backup_destination ["name.ext"] "name" ".ext"
            = copy_candidate "name" ".ext" N
          ∧ copy_candidate "name" ".ext" N ∉ ["name.ext"]
          ∧ ∀ m, 1 ≤ m → m < N →
              copy_candidate "name" ".ext" m ∈ ["name.ext"])
    ∧ backup_destination ["name.ext"] "name" ".ext" = "name_copy1.ext" := by
  refine ⟨⟨by decide, (c9_backup_smallest_unused_copyN [] "name" ".ext").1
        (by decide)⟩,
    ⟨by decide, ⟨0, by omega, by decide⟩,
      (c9_backup_smallest_unused_copyN ["name.ext"] "name" ".ext").2
        (by decide) ⟨0, by omega, by decide⟩⟩, ?_⟩
  decide

/-! ## Claim C1 -/

/-- Helper for C1: the inner protein loop of the main phase executes one
task per remaining target, whatever the state. -/
theorem run_protein_loop_trace (tok : String → String → Option String)
    (m : String) : ∀ (proteins : List String) (st : PhaseState),
    (run_protein_loop tok m st proteins).2 = proteins.map (fun p => (m, p)) := by
  intro proteins
  induction proteins with
  | nil => intro st; rfl
  | cons p ps ih =>
    intro st
    simp [run_protein_loop, ih]

/-- Helper for C1: the model loop of the main phase executes one task per
(model, target) pair, whatever the state. -/
theorem run_model_loop_trace (tok : String → String → Option String) :
    ∀ (models : List String) (st : PhaseState) (proteins : List String),
    (run_model_loop tok st models proteins).2
      = models.flatMap (fun m => proteins.map (fun p => (m, p))) := by
  intro models
  induction models with
  | nil => intro st proteins; rfl
  | cons m ms ih =>
    intro st proteins
    simp [run_model_loop, run_protein_loop_trace, ih]

/-- C1 counterexample: the claim says a ScoreRecord existence check is
performed before every task in both phases, so each target ledger holds at
most one record per name and a re-run adds no duplicates.  The main
candidate/pose loop (dock.py 1320-1352) performs no such check: running
the main phase twice over one model `L` and one target `P`, with the
external tool scoring `-7.0` each time, leaves the target's ledger with
two rows named `L`. -/
theorem c1_rerun_appends_duplicate_record :
    (((run_main_phase (fun _ _ => some "-7.0")
        (run_main_phase (fun _ _ => some "-7.0") ⟨fun _ => [], []⟩
          [("L", ["L"])] ["P"]).1
        [("L", ["L"])] ["P"]).1.ledgers "P").map (fun r => r.name))
      = ["L", "L"] := by
  have hacc : acceptsScoreToken "-7.0" = true := by decide
  have hparse : (parseRat "-7.0").isSome = true := by decide
  have hle : scoreLE ⟨"-7.0", "L"⟩ ⟨"-7.0", "L"⟩ = true := by
    simp [scoreLE]
  simp [run_main_phase, run_model_loop, run_protein_loop, run_main_task,
    docking_task_score_phase, hacc, hparse, hle, update_sorted_scores,
    List.mergeSort, List.merge]

/-- C1 as amended: only the reference-scoring (comparison) phase performs
a pre-execution skip check, and it consults `results/scores_<target>.txt`
— a path distinct from the ledger `results/scores/scores_<target>.txt`
that scoring writes — matching the name by substring containment against
whole lines; a skipped task still advances to the next target.  The main
candidate/pose phase performs no existence check at all: it executes a
task for every (model, target) pair regardless of state, and an accepted
score always appends a row for the model's name to the target's ledger —
one more than before, even if records with that name already exist, so a
re-run duplicates records. -/
theorem c1_skip_check_only_in_comparison_phase
    (tok : String → String → Option String)
    (rootFile : String → Option (List String)) :
    (∀ (st : PhaseState) (ligandModels : List (String × List String))
        (proteins : List String),
      (run_main_phase tok st ligandModels proteins).2
        = ligandModels.flatMap
            (fun lm => lm.2.flatMap (fun m => proteins.map (fun p => (m, p)))))
    ∧ (∀ (st : PhaseState) (m p t : String), tok m p = some t →
        acceptsScoreToken t = true →
        nameCount ((run_main_task tok st m p).ledgers p) m
          = nameCount (st.ledgers p) m + 1)
    ∧ (∀ (c : String) (st : PhaseState) (proteins : List String),
        (run_comparison_loop tok rootFile c st proteins).2
          = (proteins.filter (fun p => !comparison_skip rootFile c p)).map
              (fun p => (c, p))) := by
  refine ⟨?_, ?_, ?_⟩
  · intro st lms proteins
    induction lms generalizing st with
    | nil => rfl
    | cons lm rest ih =>
      simp [run_main_phase, run_model_loop_trace, ih]
  · intro st m p t h1 h2
    have hsort : ∀ rows : List ScoreRow,
        nameCount (update_sorted_scores rows) m = nameCount rows m := by
      intro rows
      simp only [nameCount]
      exact ((List.mergeSort_perm rows scoreLE).filter _).length_eq
    have happ : ∀ rows : List ScoreRow,
        nameCount (rows ++ [⟨t, m⟩]) m = nameCount rows m + 1 := by
      intro rows
      simp [nameCount, List.filter_append]
    simp only [run_main_task, docking_task_score_phase, h1, h2, if_pos rfl,
      Bool.true_eq_false, if_false, if_true]
    split
    · exact (hsort _).trans (happ _)
    · exact happ _
  · intro c st proteins
    induction proteins generalizing st with
    | nil => rfl
    | cons p ps ih =>
      by_cases h : comparison_skip rootFile c p
      · simp [run_comparison_loop, h, ih]
      · simp [run_comparison_loop, h, ih]

/-- Witness for C1 as amended: one concrete accepted task appends a row
for the model name whatever the prior ledger. -/
theorem c1_skip_check_only_in_comparison_phase_witness :
    (fun (_ _ : String) => some "-7.0") "L" "P" = some "-7.0"
    ∧ acceptsScoreToken "-7.0" = true
    ∧ nameCount ((run_main_task (fun _ _ => some "-7.0")
          ⟨fun _ => [], []⟩ "L" "P").ledgers "P") "L"
        = nameCount ((⟨fun _ => [], []⟩ : PhaseState).ledgers "P") "L" + 1 :=
  ⟨rfl, by decide,
    (c1_skip_check_only_in_comparison_phase (fun _ _ => some "-7.0")
      (fun _ => none)).2.1 ⟨fun _ => [], []⟩ "L" "P" "-7.0" rfl (by decide)⟩

/-! ## Claim C4 -/

/-- Helper: evaluate `parseRat` from a structurally computed
`parseDecimal` result. -/
theorem parseRat_eval (s : String) (b : Bool) (i f k : ℕ)
    (h : parseDecimal s = some (b, i, f, k)) :
    parseRat s = some (ratOfParts (b, i, f, k)) := by
  simp [parseRat, h]

/-- Helper: evaluate `rowScore` from a structurally computed
`parseDecimal` result. -/
theorem rowScore_eval (t n : String) (b : Bool) (i f k : ℕ)
    (h : parseDecimal t = some (b, i, f, k)) :
    rowScore ⟨t, n⟩ = ratOfParts (b, i, f, k) := by
  simp [rowScore, parseRat_eval t b i f k h]

/-- Helper: Python tuple comparison on deviation triples is transitive. -/
theorem tripleLE_trans : ∀ a b c : ℚ × ℚ × String,
    tripleLE a b → tripleLE b c → tripleLE a c := by
  intro a b c h1 h2
  simp only [tripleLE, decide_eq_true_eq] at *
  rcases h1 with h1 | ⟨e1, h1⟩
  · rcases h2 with h2 | ⟨e2, h2⟩
    · exact Or.inl (lt_trans h1 h2)
    · exact Or.inl (e2 ▸ h1)
  · rcases h2 with h2 | ⟨e2, h2⟩
    · exact Or.inl (e1 ▸ h2)
    · refine Or.inr ⟨e1.trans e2, ?_⟩
      rcases h1 with h1 | ⟨f1, h1⟩
      · rcases h2 with h2 | ⟨f2, h2⟩
        · exact Or.inl (lt_trans h1 h2)
        · exact Or.inl (f2 ▸ h1)
      · rcases h2 with h2 | ⟨f2, h2⟩
        · exact Or.inl (f1 ▸ h2)
        · exact Or.inr ⟨f1.trans f2, le_trans h1 h2⟩

/-- Helper: Python tuple comparison on deviation triples is total. -/
theorem tripleLE_total : ∀ a b : ℚ × ℚ × String,
    tripleLE a b || tripleLE b a := by
  intro a b
  simp only [tripleLE, Bool.or_eq_true, decide_eq_true_eq]
  rcases lt_trichotomy a.1 b.1 with h | h | h
  · exact Or.inl (Or.inl h)
  · rcases lt_trichotomy a.2.1 b.2.1 with h2 | h2 | h2
    · exact Or.inl (Or.inr ⟨h, Or.inl h2⟩)
    · rcases le_total a.2.2 b.2.2 with h3 | h3
      · exact Or.inl (Or.inr ⟨h, Or.inr ⟨h2, h3⟩⟩)
      · exact Or.inr (Or.inr ⟨h.symm, Or.inr ⟨h2.symm, h3⟩⟩)
    · exact Or.inr (Or.inr ⟨h.symm, Or.inl h2⟩)
  · exact Or.inr (Or.inl h)

/-- C4 counterexample: the claim says that for a target whose ledger
contains R's own score, every entry's stored value is
`S − referenceScore` with referenceScore being R's score.  The
reference-score lookup matches by substring containment of the whole
line, so with the ledger rows `-7.0 X_model1`, `-6.0 X` and reference
`X`, the first line already contains `X` and the lookup returns `-7`
(the record of the different ligand `X_model1`).  The entry for `X`
(score `-6`) is therefore stored with deviation `1`, not
`S − (R's own score) = -6 − (-6) = 0`. -/
theorem c4_substring_shadowed_reference :
    per_protein_file [⟨"-7.0", "X_model1"⟩, ⟨"-6.0", "X"⟩] "X"
      = some [(0, "X_model1"), (1, "X")]
    ∧ rowScore ⟨"-6.0", "X"⟩ - rowScore ⟨"-6.0", "X"⟩ = 0
    ∧ (1 : ℚ) ≠ rowScore ⟨"-6.0", "X"⟩ - rowScore ⟨"-6.0", "X"⟩ := by
  have hv1 : rowScore ⟨"-7.0", "X_model1"⟩ = -7 := by
    rw [rowScore_eval _ _ true 7 0 1 (by decide)]
    norm_num [ratOfParts]
  have hv2 : rowScore ⟨"-6.0", "X"⟩ = -6 := by
    rw [rowScore_eval _ _ true 6 0 1 (by decide)]
    norm_num [ratOfParts]
  have hs1 : strContains (rowLine ⟨"-7.0", "X_model1"⟩) "X" = true := by decide
  have hlk : lookup_comp_score [⟨"-7.0", "X_model1"⟩, ⟨"-6.0", "X"⟩] "X"
      = some (-7) := by
    simp [lookup_comp_score, List.find?, hs1, hv1]
  refine ⟨?_, by rw [hv2]; norm_num, by rw [hv2]; norm_num⟩
  rw [per_protein_file, per_protein_diffs, hlk]
  simp only [Option.map_some', Option.some.injEq, List.map_cons, List.map_nil,
    hv1, hv2]
  norm_num [List.mergeSort, List.merge, tripleLE]

/-- C4 as amended: for each (reference, target), the reference score is
the score field of the first ledger line containing the reference name as
a substring (which is R's own score only when no earlier line contains
that name); when no line contains it the target is skipped.  The produced
file holds, for every ledger row with score `S`, the signed value
`S − referenceScore` — a permutation of the rows — and its rows are
sorted ascending by absolute value of the deviation (Python tuple order:
ties by signed value, then name), so an entry with deviation −0.2 ranks
above one with +0.5. -/
theorem c4_deviations_sorted_by_abs (rows : List ScoreRow) (comp : String) :
    (per_protein_diffs rows comp = none ↔ lookup_comp_score rows comp = none)
    ∧ ∀ (cs : ℚ) (out : List (ℚ × ℚ × String)),
        lookup_comp_score rows comp = some cs →
        per_protein_diffs rows comp = some out →
        out.Perm (rows.map (fun r => (|rowScore r - cs|, rowScore r - cs, r.name)))
        ∧ out.Pairwise (fun a b => a.1 ≤ b.1) := by
  constructor
  · rw [per_protein_diffs]
    exact Option.map_eq_none'
  · intro cs out h1 h2
    rw [per_protein_diffs, h1] at h2
    simp only [Option.map_some', Option.some.injEq] at h2
    subst h2
    constructor
    · exact List.mergeSort_perm _ _
    · have := List.sorted_mergeSort tripleLE_trans tripleLE_total
        (rows.map (fun r => (|rowScore r - cs|, rowScore r - cs, r.name)))
      refine this.imp ?_
      intro a b h
      simp only [tripleLE, decide_eq_true_eq] at h
      rcases h with h | ⟨e, -⟩
      · exact le_of_lt h
      · exact le_of_eq e

/-- Witness for C4 as amended, on a ledger with deviations 0, −0.2 and
+0.5: the −0.2 entry ranks above the +0.5 entry with its sign preserved. -/
theorem c4_deviations_sorted_by_abs_witness :
    lookup_comp_score [⟨"0.8", "pb"⟩, ⟨"1.0", "ref"⟩, ⟨"1.5", "pa"⟩] "ref"
      = some 1
    ∧ per_protein_diffs [⟨"0.8", "pb"⟩, ⟨"1.0", "ref"⟩, ⟨"1.5", "pa"⟩] "ref"
      = some [(0, 0, "ref"), (1/5, -1/5, "pb"), (1/2, 1/2, "pa")]
    ∧ (List.Perm [((0 : ℚ), (0 : ℚ), "ref"), (1/5, -1/5, "pb"), (1/2, 1/2, "pa")]
        (([⟨"0.8", "pb"⟩, ⟨"1.0", "ref"⟩, ⟨"1.5", "pa"⟩] : List ScoreRow).map
          (fun r => (|rowScore r - 1|, rowScore r - 1, r.name)))
      ∧ ([((0 : ℚ), (0 : ℚ), "ref"), (1/5, -1/5, "pb"),
          (1/2, 1/2, "pa")]).Pairwise (fun a b => a.1 ≤ b.1)) := by
  have hv1 : rowScore ⟨"0.8", "pb"⟩ = 4/5 := by
    rw [rowScore_eval _ _ false 0 8 1 (by decide)]
    norm_num [ratOfParts]
  have hv2 : rowScore ⟨"1.0", "ref"⟩ = 1 := by
    rw [rowScore_eval _ _ false 1 0 1 (by decide)]
    norm_num [ratOfParts]
  have hv3 : rowScore ⟨"1.5", "pa"⟩ = 3/2 := by
    rw [rowScore_eval _ _ false 1 5 1 (by decide)]
    norm_num [ratOfParts]
  have hs0 : strContains (rowLine ⟨"0.8", "pb"⟩) "ref" = false := by decide
  have hs1 : strContains (rowLine ⟨"1.0", "ref"⟩) "ref" = true := by decide
  have hlk : lookup_comp_score [⟨"0.8", "pb"⟩, ⟨"1.0", "ref"⟩, ⟨"1.5", "pa"⟩]
      "ref" = some 1 := by
    simp [lookup_comp_score, List.find?, hs0, hs1, hv2]
  have hpd : per_protein_diffs [⟨"0.8", "pb"⟩, ⟨"1.0", "ref"⟩, ⟨"1.5", "pa"⟩]
      "ref" = some [(0, 0, "ref"), (1/5, -1/5, "pb"), (1/2, 1/2, "pa")] := by
    have hab1 : |(1 : ℚ)/5| = 1/5 := abs_of_nonneg (by norm_num)
    have hab2 : |(1 : ℚ)/2| = 1/2 := abs_of_nonneg (by norm_num)
    rw [per_protein_diffs, hlk]
    simp only [Option.map_some', Option.some.injEq, List.map_cons,
      List.map_nil, hv1, hv2, hv3]
    norm_num [List.mergeSort, List.merge, tripleLE, hab1, hab2]
  exact ⟨hlk, hpd, by
    have := (c4_deviations_sorted_by_abs
      [⟨"0.8", "pb"⟩, ⟨"1.0", "ref"⟩, ⟨"1.5", "pa"⟩]
      "ref").2 1 [(0, 0, "ref"), (1/5, -1/5, "pb"), (1/2, 1/2, "pa")] hlk hpd
    simpa [hv1, hv2, hv3] using this⟩

/-! ## Claim C10 -/

/-- C10: score and RMS lookups match by substring containment of the
queried name in the whole ledger line, so when one recorded name is a
substring of another the lookup can return a different ligand's record.
Concretely, with ledger rows `-7.0 X_model10`, `-6.0 X_model1`:
* the reference-score lookup of `generate_comparison_scores` for
  `X_model1` returns `-7` — the score of `X_model10`'s record — although
  the row whose name field is exactly `X_model1` scores `-6`;
* `write_ligand_stats` collects the same wrong score `-7`;
* the RMS/rank lookup of `write_ligand_summary` on the RMS file returns
  `X_model10`'s value `0.5` for `X_model1`, with rank 4 because the three
  unfiltered header lines are counted too. -/
theorem c10_substring_lookup_matches_other_record :
    lookup_comp_score [⟨"-7.0", "X_model10"⟩, ⟨"-6.0", "X_model1"⟩] "X_model1"
      = some (-7)
    ∧ (([⟨"-7.0", "X_model10"⟩, ⟨"-6.0", "X_model1"⟩] : List ScoreRow).find?
        (fun r => r.name = "X_model1")).map rowScore = some (-6)
    ∧ ligand_stats_scores ["P"]
        (fun _ => [⟨"-7.0", "X_model10"⟩, ⟨"-6.0", "X_model1"⟩]) "X_model1"
      = [-7]
    ∧ summary_rms_lookup
        ["# Generated: now", "# RMS values for all ligands relative to C.",
         "# RMS  Ligand", "0.5000 X_model10", "0.7000 X_model1"] "X_model1"
      = some (1/2, 4) := by
  have hv1 : rowScore ⟨"-7.0", "X_model10"⟩ = -7 := by
    rw [rowScore_eval _ _ true 7 0 1 (by decide)]
    norm_num [ratOfParts]
  have hv2 : rowScore ⟨"-6.0", "X_model1"⟩ = -6 := by
    rw [rowScore_eval _ _ true 6 0 1 (by decide)]
    norm_num [ratOfParts]
  have hs1 : strContains (rowLine ⟨"-7.0", "X_model10"⟩) "X_model1" = true := by
    decide
  have hlk : lookup_comp_score
      [⟨"-7.0", "X_model10"⟩, ⟨"-6.0", "X_model1"⟩] "X_model1" = some (-7) := by
    simp [lookup_comp_score, List.find?, hs1, hv1]
  have hname : (([⟨"-7.0", "X_model10"⟩, ⟨"-6.0", "X_model1"⟩] :
      List ScoreRow).find? (fun r => r.name = "X_model1")).map rowScore
      = some (-6) := by
    have : (("X_model10" : String) = "X_model1") = False := by simp
    simp [List.find?, this, hv2]
  refine ⟨hlk, hname, ?_, ?_⟩
  · simp [ligand_stats_scores, List.find?, hs1, hv1]
  · have hfind : ((["# Generated: now",
        "# RMS values for all ligands relative to C.", "# RMS  Ligand",
        "0.5000 X_model10", "0.7000 X_model1"].map pyStrip).filter
          (fun l => l ≠ "")).enum.find?
        (fun il => strContains il.2 "X_model1")
        = some (3, "0.5000 X_model10") := by decide
    have hw : (pyWords "0.5000 X_model10").head? = some "0.5000" := by decide
    have hp : parseRat "0.5000" = some (ratOfParts (false, 0, 5000, 4)) :=
      parseRat_eval _ _ _ _ _ (by decide)
    simp only [summary_rms_lookup, hfind, Option.map_some', hw, Option.some_bind,
      hp, Option.getD_some, Option.some.injEq]
    norm_num [ratOfParts]

/-! ## Claim C6 -/


/-- Helper for C6: the incremental coordinate accumulation of
`calculate_docking_box` equals the componentwise sums. -/
theorem foldl_triple_sum : ∀ (coords : List (ℚ × ℚ × ℚ)) (s : ℚ × ℚ × ℚ),
    coords.foldl (fun s c => (s.1 + c.1, s.2.1 + c.2.1, s.2.2 + c.2.2)) s
      = (s.1 + (coords.map (fun c => c.1)).sum,
         s.2.1 + (coords.map (fun c => c.2.1)).sum,
         s.2.2 + (coords.map (fun c => c.2.2)).sum) := by
  intro coords
  induction coords with
  | nil => intro s; simp
  | cons c cs ih =>
    intro s
    simp only [List.foldl_cons, List.map_cons, List.sum_cons, ih]
    refine Prod.ext ?_ (Prod.ext ?_ ?_) <;> simp <;> ring

/-- C6: the docking box used by a task equals the six values of the
per-target configuration file verbatim whenever that file exists and all
six fields are present (parse), and otherwise equals the arithmetic
centroid of the coordinates of the target file's ATOM records as the
center with the fixed default size 20 in each dimension (stated for a
target with at least one ATOM record, as a centroid requires). -/
theorem c6_box (cfg : Option (List String)) (prot : List String) :
    (∀ a b c d e f : ℚ,
      get_box_from_config cfg
        = some [some a, some b, some c, some d, some e, some f] →
      calculate_docking_box cfg prot = ⟨a, b, c, d, e, f⟩)
    ∧ ((get_box_from_config cfg = none
        ∨ ∃ box, get_box_from_config cfg = some box
            ∧ box.all (fun v => v.isSome) = false) →
      atomCoords prot ≠ [] →
      calculate_docking_box cfg prot =
        ⟨((atomCoords prot).map (fun c => c.1)).sum / (atomCoords prot).length,
         ((atomCoords prot).map (fun c => c.2.1)).sum / (atomCoords prot).length,
         ((atomCoords prot).map (fun c => c.2.2)).sum / (atomCoords prot).length,
         20, 20, 20⟩) := by
  constructor
  · intro a b c d e f h
    simp [calculate_docking_box, h]
  · intro hmiss hne
    have hn : 0 < (atomCoords prot).length := List.length_pos.mpr hne
    have hfall : calculate_docking_box cfg prot =
        (let coords := atomCoords prot
         let acc := coords.foldl
           (fun s c => (s.1 + c.1, s.2.1 + c.2.1, s.2.2 + c.2.2))
           ((0 : ℚ), (0 : ℚ), (0 : ℚ))
         let n := coords.length
         if 0 < n then
           (⟨acc.1 / n, acc.2.1 / n, acc.2.2 / n, 20, 20, 20⟩ : Box)
         else ⟨0, 0, 0, 20, 20, 20⟩) := by
      rcases hmiss with h | ⟨box, h, hall⟩
      · simp [calculate_docking_box, h]
      · simp [calculate_docking_box, h, hall]
    rw [hfall]
    simp only [foldl_triple_sum, zero_add, if_pos hn]

/-- Witness for C6: a filled six-field configuration is used verbatim,
and with no configuration the box is the centroid of the ATOM records
with size 20. -/
theorem c6_box_witness :
    (get_box_from_config (some ["center_x=1.0", "center_y=2.0",
        "center_z=3.0", "size_x=10.0", "size_y=11.0", "size_z=12.0"])
      = some [some 1, some 2, some 3, some 10, some 11, some 12]
     ∧ calculate_docking_box (some ["center_x=1.0", "center_y=2.0",
        "center_z=3.0", "size_x=10.0", "size_y=11.0", "size_z=12.0"]) []
      = ⟨1, 2, 3, 10, 11, 12⟩)
    ∧ (atomCoords ["ATOM      1  N   MET A   1       1.0     2.0     3.0"]
        ≠ []
     ∧ calculate_docking_box none
        ["ATOM      1  N   MET A   1       1.0     2.0     3.0"]
      = ⟨1, 2, 3, 20, 20, 20⟩) := by
  have hp1 : parseRat "1.0" = some 1 := by
    rw [parseRat_eval _ false 1 0 1 (by decide)]
    norm_num [ratOfParts]
  have hp2 : parseRat "2.0" = some 2 := by
    rw [parseRat_eval _ false 2 0 1 (by decide)]
    norm_num [ratOfParts]
  have hp3 : parseRat "3.0" = some 3 := by
    rw [parseRat_eval _ false 3 0 1 (by decide)]
    norm_num [ratOfParts]
  have hp10 : parseRat "10.0" = some 10 := by
    rw [parseRat_eval _ false 10 0 1 (by decide)]
    norm_num [ratOfParts]
  have hp11 : parseRat "11.0" = some 11 := by
    rw [parseRat_eval _ false 11 0 1 (by decide)]
    norm_num [ratOfParts]
  have hp12 : parseRat "12.0" = some 12 := by
    rw [parseRat_eval _ false 12 0 1 (by decide)]
    norm_num [ratOfParts]
  have hcp : config_params ["center_x=1.0", "center_y=2.0", "center_z=3.0",
      "size_x=10.0", "size_y=11.0", "size_z=12.0"]
      = [("center_x", "1.0"), ("center_y", "2.0"), ("center_z", "3.0"),
         ("size_x", "10.0"), ("size_y", "11.0"), ("size_z", "12.0")] := by
    decide
  have hbox : get_box_from_config (some ["center_x=1.0", "center_y=2.0",
      "center_z=3.0", "size_x=10.0", "size_y=11.0", "size_z=12.0"])
      = some [some 1, some 2, some 3, some 10, some 11, some 12] := by
    have hl1 : params_lookup [("center_x", "1.0"), ("center_y", "2.0"),
        ("center_z", "3.0"), ("size_x", "10.0"), ("size_y", "11.0"),
        ("size_z", "12.0")] "center_x" = some "1.0" := by decide
    have hl2 : params_lookup [("center_x", "1.0"), ("center_y", "2.0"),
        ("center_z", "3.0"), ("size_x", "10.0"), ("size_y", "11.0"),
        ("size_z", "12.0")] "center_y" = some "2.0" := by decide
    have hl3 : params_lookup [("center_x", "1.0"), ("center_y", "2.0"),
        ("center_z", "3.0"), ("size_x", "10.0"), ("size_y", "11.0"),
        ("size_z", "12.0")] "center_z" = some "3.0" := by decide
    have hl4 : params_lookup [("center_x", "1.0"), ("center_y", "2.0"),
        ("center_z", "3.0"), ("size_x", "10.0"), ("size_y", "11.0"),
        ("size_z", "12.0")] "size_x" = some "10.0" := by decide
    have hl5 : params_lookup [("center_x", "1.0"), ("center_y", "2.0"),
        ("center_z", "3.0"), ("size_x", "10.0"), ("size_y", "11.0"),
        ("size_z", "12.0")] "size_y" = some "11.0" := by decide
    have hl6 : params_lookup [("center_x", "1.0"), ("center_y", "2.0"),
        ("center_z", "3.0"), ("size_x", "10.0"), ("size_y", "11.0"),
        ("size_z", "12.0")] "size_z" = some "12.0" := by decide
    simp [get_box_from_config, hcp, hl1, hl2, hl3, hl4, hl5, hl6,
      hp1, hp2, hp3, hp10, hp11, hp12]
  have hg6 : ((pyWords
      "ATOM      1  N   MET A   1       1.0     2.0     3.0")[6]?.getD "")
      = "1.0" := by decide
  have hg7 : ((pyWords
      "ATOM      1  N   MET A   1       1.0     2.0     3.0")[7]?.getD "")
      = "2.0" := by decide
  have hg8 : ((pyWords
      "ATOM      1  N   MET A   1       1.0     2.0     3.0")[8]?.getD "")
      = "3.0" := by decide
  have hsw : strStartsWith
      "ATOM      1  N   MET A   1       1.0     2.0     3.0" "ATOM" = true := by
    decide
  have hat : atomCoords ["ATOM      1  N   MET A   1       1.0     2.0     3.0"]
      = [(1, 2, 3)] := by
    simp [atomCoords, hsw, hg6, hg7, hg8, hp1, hp2, hp3]
  refine ⟨⟨hbox, (c6_box _ []).1 1 2 3 10 11 12 hbox⟩, ?_⟩
  have hne : atomCoords ["ATOM      1  N   MET A   1       1.0     2.0     3.0"]
      ≠ [] := by
    rw [hat]
    simp
  refine ⟨hne, ?_⟩
  have := (c6_box none
    ["ATOM      1  N   MET A   1       1.0     2.0     3.0"]).2
    (Or.inl (by simp [get_box_from_config])) hne
  rw [hat] at this
  rw [this]
  norm_num

/-! ## Claim C3 -/


/-- Helper for C3: keys of the grouping dictionary after an insert. -/
theorem dict_insert_keys (k0 : String) (v : ℚ) :
    ∀ d : List (String × List ℚ),
    (dict_insert d k0 v).map (fun kv => kv.1)
      = if k0 ∈ d.map (fun kv => kv.1) then d.map (fun kv => kv.1)
        else d.map (fun kv => kv.1) ++ [k0] := by
  intro d
  induction d with
  | nil => simp [dict_insert]
  | cons kv rest ih =>
    rw [dict_insert]
    by_cases h : kv.1 = k0
    · rw [if_pos h]
      simp only [List.map_cons]
      rw [if_pos (by simp [h])]
    · rw [if_neg h]
      simp only [List.map_cons, ih]
      by_cases h2 : k0 ∈ rest.map (fun kv => kv.1)
      · rw [if_pos h2, if_pos (by simp [h2])]
      · have hnotin : ¬ k0 ∈ kv.1 :: rest.map (fun kv => kv.1) := by
          simp only [List.mem_cons]
          rintro (rfl | hh)
          · exact h rfl
          · exact h2 hh
        rw [if_neg h2, if_neg hnotin]
        simp

/-- Helper for C3: case analysis of membership after a dictionary
insert, for dictionaries with distinct keys. -/
theorem mem_dict_insert (k0 : String) (v : ℚ) :
    ∀ (d : List (String × List ℚ)), (d.map (fun kv => kv.1)).Nodup →
    ∀ kl, kl ∈ dict_insert d k0 v →
      (kl ∈ d ∧ kl.1 ≠ k0)
      ∨ (∃ l, (k0, l) ∈ d ∧ kl = (k0, l ++ [v]))
      ∨ (k0 ∉ d.map (fun kv => kv.1) ∧ kl = (k0, [v])) := by
  intro d
  induction d with
  | nil =>
    intro _ kl h
    simp [dict_insert] at h
    subst h
    exact Or.inr (Or.inr ⟨by simp, rfl⟩)
  | cons kv rest ih =>
    intro hnd kl h
    simp only [List.map_cons, List.nodup_cons] at hnd
    by_cases hk : kv.1 = k0
    · rw [dict_insert, if_pos hk] at h
      rcases List.mem_cons.mp h with rfl | h2
      · exact Or.inr (Or.inl ⟨kv.2, by simp [← hk], by simp [hk]⟩)
      · left
        refine ⟨List.mem_cons_of_mem _ h2, ?_⟩
        intro hcon
        apply hnd.1
        rw [hk, ← hcon]
        exact List.mem_map_of_mem _ h2
    · rw [dict_insert, if_neg hk] at h
      rcases List.mem_cons.mp h with rfl | h2
      · exact Or.inl ⟨List.mem_cons_self _ _, fun hh => hk hh⟩
      · rcases ih hnd.2 kl h2 with h3 | ⟨l, hl, rfl⟩ | ⟨h3, rfl⟩
        · exact Or.inl ⟨List.mem_cons_of_mem _ h3.1, h3.2⟩
        · exact Or.inr (Or.inl ⟨l, List.mem_cons_of_mem _ hl, rfl⟩)
        · refine Or.inr (Or.inr ⟨?_, rfl⟩)
          simp only [List.map_cons, List.mem_cons]
          rintro (h4 | h4)
          · exact hk h4.symm
          · exact h3 h4

/-- Helper for C3: one grouping step. -/
theorem group_diffs_append (pairs : List (String × ℚ)) (x : String × ℚ) :
    group_diffs (pairs ++ [x]) = dict_insert (group_diffs pairs) x.1 x.2 := by
  simp [group_diffs, List.foldl_append]

/-- Helper for C3: the grouped dictionary maps each name to exactly the
deviations recorded for it, in order; keys are distinct and are exactly
the names occurring in the flat list. -/
theorem group_diffs_spec (pairs : List (String × ℚ)) :
    (∀ kl ∈ group_diffs pairs,
        kl.2 = (pairs.filter (fun p => p.1 = kl.1)).map (fun p => p.2))
    ∧ ((group_diffs pairs).map (fun kv => kv.1)).Nodup
    ∧ ∀ k, k ∈ (group_diffs pairs).map (fun kv => kv.1)
        ↔ (pairs.filter (fun p => p.1 = k)) ≠ [] := by
  induction pairs using List.reverseRecOn with
  | nil =>
    refine ⟨by simp [group_diffs], by simp [group_diffs], by simp [group_diffs]⟩
  | append_singleton pairs x ih =>
    obtain ⟨ihval, ihnd, ihkeys⟩ := ih
    rw [group_diffs_append]
    refine ⟨?_, ?_, ?_⟩
    · intro kl h
      rcases mem_dict_insert x.1 x.2 (group_diffs pairs) ihnd kl h with
        ⟨h1, h2⟩ | ⟨l, hl, rfl⟩ | ⟨h1, rfl⟩
      · have hne : ¬ (x.1 = kl.1) := fun hh => h2 hh.symm
        rw [List.filter_append, List.map_append]
        have hx : List.filter (fun p => decide (p.1 = kl.1)) [x] = [] := by
          simp [hne]
        rw [hx]
        simp [ihval kl h1]
      · have hl2 := ihval (x.1, l) hl
        rw [List.filter_append, List.map_append]
        have hx : List.filter (fun p => decide (p.1 = (x.1, l ++ [x.2]).1)) [x]
            = [x] := by
          simp
        rw [hx]
        simp only at hl2
        simp [← hl2]
      · have hflt : pairs.filter (fun p => decide (p.1 = x.1)) = [] := by
          by_contra hcon
          exact h1 ((ihkeys x.1).mpr hcon)
        rw [List.filter_append, List.map_append]
        simp only
        rw [hflt]
        simp
    · rw [dict_insert_keys]
      by_cases hmem : x.1 ∈ (group_diffs pairs).map (fun kv => kv.1)
      · rw [if_pos hmem]
        exact ihnd
      · rw [if_neg hmem]
        simp [List.nodup_append, ihnd, hmem]
    · intro k
      rw [dict_insert_keys, List.filter_append]
      by_cases hk : k = x.1
      · have hxk : List.filter (fun p => decide (p.1 = k)) [x] = [x] := by
          simp [hk]
        rw [hxk]
        by_cases hmem : x.1 ∈ (group_diffs pairs).map (fun kv => kv.1)
        · rw [if_pos hmem]
          simp [hk, hmem]
        · rw [if_neg hmem]
          simp [hk]
      · have hne2 : ¬ (x.1 = k) := fun hh => hk hh.symm
        have hxk : List.filter (fun p => decide (p.1 = k)) [x] = [] := by
          simp [hne2]
        rw [hxk, List.append_nil]
        by_cases hmem : x.1 ∈ (group_diffs pairs).map (fun kv => kv.1)
        · rw [if_pos hmem]
          exact ihkeys k
        · rw [if_neg hmem]
          rw [List.mem_append]
          constructor
          · rintro (h1 | h1)
            · exact (ihkeys k).mp h1
            · exact absurd (List.mem_singleton.mp h1) hk
          · intro h1
            exact Or.inl ((ihkeys k).mpr h1)

/-- Helper for C3: the accumulated `rms_scores` list is the per-target
concatenation of contributions. -/
theorem collect_eq_flatMap (comp : String) (ledgers : String → List ScoreRow) :
    ∀ (proteins : List String) (acc : List (String × ℚ)),
    proteins.foldl
      (fun acc p =>
        match per_protein_diffs (ledgers p) comp with
        | none => acc
        | some l => acc ++ l.map (fun t => (t.2.2, t.2.1)))
      acc
      = acc ++ proteins.flatMap (fun p =>
          match per_protein_diffs (ledgers p) comp with
          | none => []
          | some l => l.map (fun t => (t.2.2, t.2.1))) := by
  intro proteins
  induction proteins with
  | nil => intro acc; simp
  | cons p ps ih =>
    intro acc
    rw [List.foldl_cons, List.flatMap_cons]
    cases hc : per_protein_diffs (ledgers p) comp with
    | none => simp only [ih, List.nil_append]
    | some l => simp only [ih, List.append_assoc]

/-- Helper for C3: in a ledger with distinct names, filtering by a name
yields exactly the row `find?` returns. -/
theorem filter_name_nodup (n : String) : ∀ (rows : List ScoreRow),
    ((rows.map (fun r => r.name)).Nodup) →
    rows.filter (fun r => r.name = n)
      = (rows.find? (fun r => r.name = n)).toList := by
  intro rows
  induction rows with
  | nil => intro _; rfl
  | cons r rest ih =>
    intro hnd
    simp only [List.map_cons, List.nodup_cons] at hnd
    by_cases h : r.name = n
    · have hrest : rest.filter (fun r => decide (r.name = n)) = [] := by
        apply List.filter_eq_nil_iff.mpr
        intro a ha
        simp only [decide_eq_true_eq]
        intro hcon
        apply hnd.1
        rw [h, ← hcon]
        exact List.mem_map_of_mem _ ha
      simp [List.filter_cons, List.find?_cons, h, hrest]
    · simp [List.filter_cons, List.find?_cons, h, ih hnd.2]

/-- Helper for C3: the deviations collected for a name `n` across all
targets are (up to the per-target sorting) exactly one deviation per
target whose reference lookup succeeded and whose ledger has a row named
`n` — i.e. `devs_for`. -/
theorem collect_filter_perm (comp : String) (ledgers : String → List ScoreRow)
    (n : String) : ∀ (proteins : List String),
    (∀ p ∈ proteins, ((ledgers p).map (fun r => r.name)).Nodup) →
    List.Perm
      (((collect_rms_scores comp proteins ledgers).filter
        (fun q => q.1 = n)).map (fun q => q.2))
      (devs_for comp proteins ledgers n) := by
  intro proteins
  induction proteins with
  | nil => intro _; simp [collect_rms_scores, devs_for]
  | cons p ps ih =>
    intro hnd
    have hp := hnd p (List.mem_cons_self _ _)
    have hrest := fun q hq => hnd q (List.mem_cons_of_mem _ hq)
    rw [collect_rms_scores, collect_eq_flatMap, List.nil_append,
      List.flatMap_cons, List.filter_append, List.map_append]
    rw [devs_for, List.filterMap_cons]
    have hps : List.Perm
        (((ps.flatMap (fun p =>
          match per_protein_diffs (ledgers p) comp with
          | none => []
          | some l => l.map (fun t => (t.2.2, t.2.1)))).filter
            (fun q => q.1 = n)).map (fun q => q.2))
        (devs_for comp ps ledgers n) := by
      have := ih hrest
      rwa [collect_rms_scores, collect_eq_flatMap, List.nil_append] at this
    cases hc : lookup_comp_score (ledgers p) comp with
    | none =>
      have hpd : per_protein_diffs (ledgers p) comp = none := by
        rw [per_protein_diffs, hc]
        rfl
      simp only [hpd]
      rw [devs_for] at hps
      simpa [hc] using hps
    | some cs =>
      have hpd : per_protein_diffs (ledgers p) comp
          = some ((((ledgers p).map
              (fun r => (|rowScore r - cs|, rowScore r - cs, r.name))).mergeSort
              tripleLE)) := by
        simp [per_protein_diffs, hc]
      have hL1 : List.Perm
          (((((((ledgers p).map
            (fun r => (|rowScore r - cs|, rowScore r - cs, r.name))).mergeSort
            tripleLE)).map (fun t => (t.2.2, t.2.1))).filter
              (fun q => q.1 = n)).map (fun q => q.2))
          ((((ledgers p).find? (fun r => r.name = n)).toList).map
            (fun r => rowScore r - cs)) := by
        have hperm1 : List.Perm
            ((((ledgers p).map
              (fun r => (|rowScore r - cs|, rowScore r - cs, r.name))).mergeSort
              tripleLE).map (fun t => (t.2.2, t.2.1)))
            (((ledgers p).map
              (fun r => (|rowScore r - cs|, rowScore r - cs, r.name))).map
              (fun t => (t.2.2, t.2.1))) :=
          (List.mergeSort_perm _ _).map _
        refine ((hperm1.filter _).map _).trans ?_
        rw [List.map_map, List.filter_map, List.map_map]
        have hcomp : ((fun q : String × ℚ => decide (q.1 = n)) ∘
            ((fun t : ℚ × ℚ × String => (t.2.2, t.2.1)) ∘
              (fun r => (|rowScore r - cs|, rowScore r - cs, r.name))))
            = fun r : ScoreRow => decide (r.name = n) := by
          funext r
          rfl
        rw [hcomp, filter_name_nodup n _ hp]
        cases hf : (ledgers p).find? (fun r => decide (r.name = n)) with
        | none => simp
        | some r => simp
      simp only [hpd, hc, Option.some_bind]
      rw [devs_for] at hps
      cases hf : (ledgers p).find? (fun r => decide (r.name = n)) with
      | none =>
        rw [hf] at hL1
        simp only [Option.toList_none, List.map_nil] at hL1
        simp only [hf, Option.map_none']
        exact (hL1.append hps).trans (by simp)
      | some r =>
        rw [hf] at hL1
        simp only [Option.toList_some, List.map_cons, List.map_nil] at hL1
        simp only [hf, Option.map_some']
        exact hL1.append hps

/-- Helper for C3: the mean of squares is invariant under permutation. -/
theorem mean_square_perm (l1 l2 : List ℚ) (h : l1.Perm l2) :
    mean_square l1 = mean_square l2 := by
  rw [mean_square, mean_square, (h.map _).sum_eq, h.length_eq]

/-- Helper for C3: the mean of squares is nonnegative. -/
theorem mean_square_nonneg (l : List ℚ) : 0 ≤ mean_square l := by
  rw [mean_square]
  apply div_nonneg
  · apply List.sum_nonneg
    intro x hx
    obtain ⟨d, -, rfl⟩ := List.mem_map.mp hx
    positivity
  · exact Nat.cast_nonneg _

/-- Helper for C3: Python tuple comparison on (value, name) pairs is
transitive. -/
theorem pairLE_trans : ∀ a b c : ℚ × String,
    pairLE a b → pairLE b c → pairLE a c := by
  intro a b c h1 h2
  simp only [pairLE, decide_eq_true_eq] at *
  rcases h1 with h1 | ⟨e1, h1⟩
  · rcases h2 with h2 | ⟨e2, h2⟩
    · exact Or.inl (lt_trans h1 h2)
    · exact Or.inl (e2 ▸ h1)
  · rcases h2 with h2 | ⟨e2, h2⟩
    · exact Or.inl (e1 ▸ h2)
    · exact Or.inr ⟨e1.trans e2, le_trans h1 h2⟩

/-- Helper for C3: Python tuple comparison on (value, name) pairs is
total. -/
theorem pairLE_total : ∀ a b : ℚ × String, pairLE a b || pairLE b a := by
  intro a b
  simp only [pairLE, Bool.or_eq_true, decide_eq_true_eq]
  rcases lt_trichotomy a.1 b.1 with h | h | h
  · exact Or.inl (Or.inl h)
  · rcases le_total a.2 b.2 with h2 | h2
    · exact Or.inl (Or.inr ⟨h, h2⟩)
    · exact Or.inr (Or.inr ⟨h.symm, h2⟩)
  · exact Or.inr (Or.inl h)

/-- Helper for C3: sorting the real-valued `(sqrt ms, name)` pairs is the
same as sorting the rational `(ms, name)` pairs and applying the square
root afterwards, because `sqrt` is strictly monotone on the nonnegative
mean-square keys. -/
theorem rms_file_rows_eq (comp : String) (proteins : List String)
    (ledgers : String → List ScoreRow) :
    rms_file_rows comp proteins ledgers
      = (((group_diffs (collect_rms_scores comp proteins ledgers)).map
          (fun kv => ((mean_square kv.2, kv.1) : ℚ × String))).mergeSort
            pairLE).map
          (fun q => ((Real.sqrt (q.1 : ℝ), q.2) : ℝ × String)) := by
  rw [rms_file_rows]
  rw [List.map_mergeSort]
  · rw [List.map_map]
    rfl
  · intro a ha b hb
    obtain ⟨kva, -, rfl⟩ := List.mem_map.mp ha
    obtain ⟨kvb, -, rfl⟩ := List.mem_map.mp hb
    have hA : (0 : ℝ) ≤ (mean_square kva.2 : ℝ) := by
      exact_mod_cast mean_square_nonneg kva.2
    have hB : (0 : ℝ) ≤ (mean_square kvb.2 : ℝ) := by
      exact_mod_cast mean_square_nonneg kvb.2
    rw [pairLE, realPairLE]
    rw [decide_eq_decide]
    constructor
    · rintro (h | ⟨h, h2⟩)
      · exact Or.inl (Real.sqrt_lt_sqrt hA (by exact_mod_cast h))
      · exact Or.inr ⟨by rw [h], h2⟩
    · rintro (h | ⟨h, h2⟩)
      · left
        have := (Real.sqrt_lt_sqrt_iff hA).mp h
        exact_mod_cast this
      · right
        refine ⟨?_, h2⟩
        have := (Real.sqrt_inj hA hB).mp h
        exact_mod_cast this


/-- C3: for every reference ligand R and pose name N, the value written
for N in R's RMS ranking file equals `sqrt(mean(deviation_i^2))` over
exactly the deviations the run produced for (R, N) — one per target whose
reference lookup succeeded and whose ledger contains a row named N
(`devs_for`) — and the file's rows are sorted ascending by this RMS value.
Stated for ledgers whose row names are distinct per target, which is what
the pipeline's ledgers contain. -/
theorem c3_rms_value_and_sorted (comp : String) (proteins : List String)
    (ledgers : String → List ScoreRow)
    (hnd : ∀ p ∈ proteins, ((ledgers p).map (fun r => r.name)).Nodup) :
    (∀ (v : ℝ) (n : String),
      ((v, n) : ℝ × String) ∈ rms_file_rows comp proteins ledgers →
      v = Real.sqrt ((mean_square (devs_for comp proteins ledgers n) : ℚ) : ℝ))
    ∧ (rms_file_rows comp proteins ledgers).Pairwise
        (fun a b => a.1 ≤ b.1) := by
  rw [rms_file_rows_eq]
  constructor
  · intro v n hmem
    obtain ⟨q, hq, heq⟩ := List.mem_map.mp hmem
    obtain ⟨hv, hn⟩ : Real.sqrt (q.1 : ℝ) = v ∧ q.2 = n := by
      constructor
      · exact congrArg Prod.fst heq
      · exact congrArg Prod.snd heq
    rw [List.mem_mergeSort] at hq
    obtain ⟨kv, hkv, hq2⟩ := List.mem_map.mp hq
    obtain ⟨hm, hk⟩ : mean_square kv.2 = q.1 ∧ kv.1 = q.2 := by
      constructor
      · exact congrArg Prod.fst hq2
      · exact congrArg Prod.snd hq2
    have hval := (group_diffs_spec
      (collect_rms_scores comp proteins ledgers)).1 kv hkv
    have hperm := collect_filter_perm comp ledgers kv.1 proteins hnd
    rw [← hval] at hperm
    have : mean_square kv.2 = mean_square (devs_for comp proteins ledgers n) := by
      rw [hk, hn] at hperm
      exact mean_square_perm _ _ hperm
    rw [← hv, ← hm, this]
  · have hsorted := List.sorted_mergeSort pairLE_trans pairLE_total
      ((group_diffs (collect_rms_scores comp proteins ledgers)).map
        (fun kv => ((mean_square kv.2, kv.1) : ℚ × String)))
    rw [List.pairwise_map]
    refine hsorted.imp ?_
    intro a b h
    simp only [pairLE, decide_eq_true_eq] at h
    have hab : a.1 ≤ b.1 := by
      rcases h with h | ⟨h, -⟩
      · exact le_of_lt h
      · exact le_of_eq h
    exact Real.sqrt_le_sqrt (by exact_mod_cast hab)

/-- Witness for C3 at the specification's example: a reference scoring
6.0 on both targets and a pose N scoring 5.0 and 7.0 gives deviations
−1.0 and +1.0 for N, whose RMS is `sqrt(mean((-1)^2, 1^2)) = 1`. -/
theorem c3_rms_value_and_sorted_witness :
    (∀ p ∈ ["P1", "P2"],
      (((fun p => if p = "P1" then
            ([⟨"5.0", "N"⟩, ⟨"6.0", "R"⟩] : List ScoreRow)
          else if p = "P2" then [⟨"6.0", "R"⟩, ⟨"7.0", "N"⟩] else []) p).map
        (fun r => r.name)).Nodup)
    ∧ (∀ (v : ℝ) (n : String),
        ((v, n) : ℝ × String) ∈ rms_file_rows "R" ["P1", "P2"]
          (fun p => if p = "P1" then
              ([⟨"5.0", "N"⟩, ⟨"6.0", "R"⟩] : List ScoreRow)
            else if p = "P2" then [⟨"6.0", "R"⟩, ⟨"7.0", "N"⟩] else []) →
        v = Real.sqrt ((mean_square (devs_for "R" ["P1", "P2"]
          (fun p => if p = "P1" then
              ([⟨"5.0", "N"⟩, ⟨"6.0", "R"⟩] : List ScoreRow)
            else if p = "P2" then [⟨"6.0", "R"⟩, ⟨"7.0", "N"⟩] else []) n) :
              ℚ) : ℝ))
    ∧ devs_for "R" ["P1", "P2"]
        (fun p => if p = "P1" then
            ([⟨"5.0", "N"⟩, ⟨"6.0", "R"⟩] : List ScoreRow)
          else if p = "P2" then [⟨"6.0", "R"⟩, ⟨"7.0", "N"⟩] else []) "N"
        = [-1, 1]
    ∧ Real.sqrt ((mean_square [(-1 : ℚ), 1] : ℚ) : ℝ) = 1 := by
  have hv5 : rowScore ⟨"5.0", "N"⟩ = 5 := by
    rw [rowScore_eval _ _ false 5 0 1 (by decide)]
    norm_num [ratOfParts]
  have hv6 : rowScore ⟨"6.0", "R"⟩ = 6 := by
    rw [rowScore_eval _ _ false 6 0 1 (by decide)]
    norm_num [ratOfParts]
  have hv7 : rowScore ⟨"7.0", "N"⟩ = 7 := by
    rw [rowScore_eval _ _ false 7 0 1 (by decide)]
    norm_num [ratOfParts]
  have hc1 : strContains (rowLine ⟨"5.0", "N"⟩) "R" = false := by decide
  have hc2 : strContains (rowLine ⟨"6.0", "R"⟩) "R" = true := by decide
  have hlk1 : lookup_comp_score [⟨"5.0", "N"⟩, ⟨"6.0", "R"⟩] "R"
      = some 6 := by
    simp [lookup_comp_score, List.find?, hc1, hc2, hv6]
  have hlk2 : lookup_comp_score [⟨"6.0", "R"⟩, ⟨"7.0", "N"⟩] "R"
      = some 6 := by
    simp [lookup_comp_score, List.find?, hc2, hv6]
  have hdevs : devs_for "R" ["P1", "P2"]
      (fun p => if p = "P1" then
          ([⟨"5.0", "N"⟩, ⟨"6.0", "R"⟩] : List ScoreRow)
        else if p = "P2" then [⟨"6.0", "R"⟩, ⟨"7.0", "N"⟩] else []) "N"
      = [-1, 1] := by
    have hd1 : (decide (("R" : String) = "N")) = false := by decide
    have hd2 : (decide (("N" : String) = "N")) = true := by decide
    have hif2 : (if ("P2" : String) = "P1" then
          ([⟨"5.0", "N"⟩, ⟨"6.0", "R"⟩] : List ScoreRow)
        else [⟨"6.0", "R"⟩, ⟨"7.0", "N"⟩]) = [⟨"6.0", "R"⟩, ⟨"7.0", "N"⟩] := by
      decide
    simp only [devs_for, List.filterMap_cons, List.filterMap_nil]
    norm_num [hlk1, hlk2, List.find?, hd1, hd2, hif2, hv5, hv7]
  have hms : Real.sqrt ((mean_square [(-1 : ℚ), 1] : ℚ) : ℝ) = 1 := by
    have h1 : mean_square [(-1 : ℚ), 1] = 1 := by
      norm_num [mean_square]
    rw [h1]
    norm_num [Real.sqrt_one]
  exact ⟨by decide,
    (c3_rms_value_and_sorted "R" ["P1", "P2"] _ (by decide)).1, hdevs, hms⟩

end Dock
